import Mathlib

/-!
Verification of the autospec retry ledger, phase executor, task-completion
validator and custom-agent shell routing, as a shallow embedding of the Go
source (`internal/retry`, `internal/workflow`, `internal/cliagent`).

Modelling conventions:
* Go `int` is embedded as `Int` (no arithmetic in the embedded code can
  overflow 64 bits: `Count` is only incremented while `Count < MaxRetries`).
* `time.Time` is embedded as `Nat`; `0` stands for Go's zero `time.Time`,
  and `time.Now()` is passed in explicitly as a `now : Nat` argument.
* Go maps with string keys are embedded as association lists with
  replace-or-append insertion (`insertA`), which realises Go's
  `m[k] = v` / `m[k]` semantics.
* The filesystem is a flat association list from paths to `FileContent`.
  JSON (de)serialisation is abstracted: a well-formed `retry.json` holds the
  decoded `RetryStore` directly (`FileContent.storeFile`), an unparseable
  file is `FileContent.corrupt`, and a file whose read fails with an error
  other than not-exist is `FileContent.unreadable`.  `os.WriteFile`,
  `os.Rename` and `os.ReadFile` are embedded as `fsWrite`, `fsRename` and
  `lookupA` on that list; `os.MkdirAll` is a no-op on a flat namespace.
* Go errors are embedded by their observable content: `error` results become
  `Option String` holding the `Error()` message (`none` = nil error), and
  the typed `*RetryExhaustedError` keeps its fields in a structure.
-/

namespace Autospec

/-! ### Association lists (Go map / flat filesystem primitive) -/

def lookupA {α : Type} : List (String × α) → String → Option α
  | [], _ => none
  | (q, c) :: rest, p => if q = p then some c else lookupA rest p

def insertA {α : Type} : List (String × α) → String → α → List (String × α)
  | [], p, c => [(p, c)]
  | (q, d) :: rest, p, c =>
      if q = p then (p, c) :: rest else (q, d) :: insertA rest p c

def removeA {α : Type} : List (String × α) → String → List (String × α)
  | [], _ => []
  | (q, d) :: rest, p =>
      if q = p then removeA rest p else (q, d) :: removeA rest p

theorem lookupA_insertA_self {α : Type} (m : List (String × α)) (k : String) (v : α) :
    lookupA (insertA m k v) k = some v := by
  induction m with
  | nil => simp [insertA, lookupA]
  | cons e rest ih =>
      by_cases h : e.1 = k
      · simp [insertA, lookupA, h]
      · simp [insertA, lookupA, h, ih]

theorem lookupA_insertA_ne {α : Type} (m : List (String × α)) (k k' : String) (v : α)
    (h : k' ≠ k) : lookupA (insertA m k v) k' = lookupA m k' := by
  induction m with
  | nil => simp [insertA, lookupA, Ne.symm h]
  | cons e rest ih =>
      obtain ⟨q, c⟩ := e
      by_cases he : q = k
      · simp [insertA, lookupA, he, Ne.symm h]
      · by_cases he' : q = k'
        · simp [insertA, lookupA, he, he', h]
        · simp [insertA, lookupA, he, he', ih]

theorem lookupA_removeA_self {α : Type} (m : List (String × α)) (k : String) :
    lookupA (removeA m k) k = none := by
  induction m with
  | nil => simp [removeA, lookupA]
  | cons e rest ih =>
      by_cases h : e.1 = k
      · simp [removeA, h, ih]
      · simp [removeA, lookupA, h, ih]

theorem lookupA_removeA_ne {α : Type} (m : List (String × α)) (k k' : String)
    (h : k' ≠ k) : lookupA (removeA m k) k' = lookupA m k' := by
  induction m with
  | nil => simp [removeA]
  | cons e rest ih =>
      obtain ⟨q, c⟩ := e
      by_cases he : q = k
      · simp [removeA, lookupA, he, Ne.symm h, ih]
      · by_cases he' : q = k'
        · simp [removeA, lookupA, he, he', h]
        · simp [removeA, lookupA, he, he', ih]

theorem lookupA_mem {α : Type} :
    ∀ (m : List (String × α)) (k : String) (v : α),
      lookupA m k = some v → (k, v) ∈ m := by
  intro m
  induction m with
  | nil => intro k v h; simp [lookupA] at h
  | cons e rest ih =>
      intro k v h
      obtain ⟨q, c⟩ := e
      by_cases he : q = k
      · subst he
        simp [lookupA] at h
        subst h
        exact List.mem_cons_self _ _
      · simp [lookupA, he] at h
        exact List.mem_cons_of_mem _ (ih k v h)

/-! ### Retry ledger data model (`internal/retry/retry.go`) -/

/-- `RetryState`: retry tracking for a specific spec and phase combination. -/
structure RetryState where
  SpecName : String
  Phase : String
  Count : Int
  LastAttempt : Nat
  MaxRetries : Int
deriving DecidableEq, Repr

/-- `RetryExhaustedError`: the retry limit has been reached. -/
structure RetryExhaustedError where
  SpecName : String
  Phase : String
  Count : Int
  MaxRetries : Int
deriving DecidableEq, Repr

/-- `CanRetry`: true if more retries are allowed (`r.Count < r.MaxRetries`). -/
def RetryState.CanRetry (r : RetryState) : Bool := r.Count < r.MaxRetries

/-- `Increment`: if `CanRetry` fails, return a `RetryExhaustedError` built from
the record's fields and leave the record unmodified; otherwise increment
`Count` and set `LastAttempt` to the current time.  The pair returns the
record after the call (Go mutates it in place) next to the error value. -/
def RetryState.Increment (r : RetryState) (now : Nat) :
    RetryState × Option RetryExhaustedError :=
  if !r.CanRetry then
    (r, some ⟨r.SpecName, r.Phase, r.Count, r.MaxRetries⟩)
  else
    ({ r with Count := r.Count + 1, LastAttempt := now }, none)

/-- `Reset`: set the count to 0 and clear the timestamp. -/
def RetryState.Reset (r : RetryState) : RetryState :=
  { r with Count := 0, LastAttempt := 0 }

/-- `RetryStore`: all retry states persisted to disk, keyed by `spec:phase`. -/
structure RetryStore where
  Retries : List (String × RetryState)
deriving DecidableEq, Repr

/-- Content of one file in the modelled filesystem: a well-formed store file,
an unparseable file, or a file whose read fails for a reason other than
not-exist. -/
inductive FileContent where
  | storeFile (s : RetryStore)
  | corrupt (raw : String)
  | unreadable
deriving DecidableEq, Repr

abbrev FS := List (String × FileContent)

def fsWrite (fs : FS) (p : String) (c : FileContent) : FS := insertA fs p c

/-- `os.Rename from to`: move the content at `src` over `dst`. -/
def fsRename (fs : FS) (src dst : String) : FS :=
  match lookupA fs src with
  | none => fs
  | some c => fsWrite (removeA fs src) dst c

/-- Path of the ledger file inside the state directory. -/
def retryPath (stateDir : String) : String := stateDir ++ "/retry.json"

/-- The `spec:phase` map key (`fmt.Sprintf("%s:%s", specName, phase)`). -/
def retryKey (specName phase : String) : String := specName ++ ":" ++ phase

inductive LoadStoreError where
  | notExist
  | readFailed
  | parseFailed
deriving DecidableEq, Repr

/-- `loadStore`: read and decode `stateDir/retry.json`.  Missing file, failed
read and failed parse are the three error cases of the Go function. -/
def loadStore (fs : FS) (stateDir : String) : Except LoadStoreError RetryStore :=
  match lookupA fs (retryPath stateDir) with
  | none => .error .notExist
  | some .unreadable => .error .readFailed
  | some (.corrupt _) => .error .parseFailed
  | some (.storeFile s) => .ok s

/-- `LoadRetryState`: on any `loadStore` error return a fresh zero record with
the supplied ceiling and a nil error; if the key is present return the stored
record with `MaxRetries` overridden by the supplied ceiling; otherwise a
fresh record.  The second component is the returned Go error (always nil). -/
def LoadRetryState (fs : FS) (stateDir specName phase : String)
    (maxRetries : Int) : RetryState × Option String :=
  match loadStore fs stateDir with
  | .error _ => (⟨specName, phase, 0, 0, maxRetries⟩, none)
  | .ok store =>
      match lookupA store.Retries (retryKey specName phase) with
      | some state => ({ state with MaxRetries := maxRetries }, none)
      | none => (⟨specName, phase, 0, 0, maxRetries⟩, none)

/-- `SaveRetryState`: re-read the full store (treating any load error as an
empty store), set the record under its `spec:phase` key, write the serialized
store to `retry.json.tmp` and rename it over `retry.json`. -/
def SaveRetryState (fs : FS) (stateDir : String) (state : RetryState) : FS :=
  let store :=
    match loadStore fs stateDir with
    | .error _ => RetryStore.mk []
    | .ok s => s
  let store' := RetryStore.mk
    (insertA store.Retries (retryKey state.SpecName state.Phase) state)
  let canonical := retryPath stateDir
  let tmp := canonical ++ ".tmp"
  fsRename (fsWrite fs tmp (.storeFile store')) tmp canonical

/-- `ResetRetryCount`: load (with the hard-coded default ceiling 3), reset,
save.  The load-error branch of the Go code is kept even though `Load` never
returns a non-nil error. -/
def ResetRetryCount (fs : FS) (stateDir specName phase : String) : FS :=
  match LoadRetryState fs stateDir specName phase 3 with
  | (_, some _) => fs
  | (state, none) => SaveRetryState fs stateDir state.Reset

/-! ### Phase executor (`internal/workflow/executor.go`)

`Phase` is a Go string type; it is embedded as `String`.  The progress
display and the debug log only print and are omitted.  The outcome of
`Claude.Execute` and of `validateFunc` are passed in as `Option String`
(`none` = success, `some msg` = the error's message), since both are
external calls from the executor's point of view. -/

/-- `PhaseResult`: the result of executing a workflow phase. -/
structure PhaseResult where
  Phase : String
  Success : Bool
  Error : Option String
  RetryCount : Int
  Exhausted : Bool
deriving DecidableEq, Repr

/-- `Executor`: command execution with retry logic (the fields the retry
logic reads; `Claude`, the progress display and the debug flag have no
bearing on the embedded state transitions). -/
structure Executor where
  StateDir : String
  SpecsDir : String
  MaxRetries : Int

/-- `handleRetryIncrement`: increment the retry count; on exhaustion mark the
result exhausted, keep the old count, persist the unmodified record and
return `exhaustedMsg` wrapping the original error; otherwise persist the
incremented record, set the new count on the result and return
`result.Error`.  (The Go branch for a non-exhaustion increment error is dead:
`Increment` only ever returns a `*RetryExhaustedError`.)  Returns
(result, returned Go error, filesystem after the call). -/
def Executor.handleRetryIncrement (e : Executor) (fs : FS) (result : PhaseResult)
    (retryState : RetryState) (originalErr : String) (exhaustedMsg : String)
    (now : Nat) : PhaseResult × Option String × FS :=
  match retryState.Increment now with
  | (_, some exhaustedErr) =>
      let result := { result with Exhausted := true, RetryCount := exhaustedErr.Count }
      let fs := SaveRetryState fs e.StateDir retryState
      (result, some (exhaustedMsg ++ ": " ++ originalErr), fs)
  | (newState, none) =>
      let fs := SaveRetryState fs e.StateDir newState
      ({ result with RetryCount := newState.Count }, result.Error, fs)

/-- `completePhaseSuccess`: reset and persist the retry count, mark the result
successful with retry count 0. -/
def Executor.completePhaseSuccess (e : Executor) (fs : FS) (result : PhaseResult)
    (specName phase : String) : PhaseResult × FS :=
  ({ result with Success := true, RetryCount := 0 },
   ResetRetryCount fs e.StateDir specName phase)

/-- `ExecutePhase`: load the retry state, run the agent command, validate the
output, and dispatch to the error handlers or to `completePhaseSuccess`.
`execErr` is the result of `e.Claude.Execute(command)` and `valErr` the
result of `validateFunc(specDir)`; validation runs only when execution
succeeded, matching the Go control flow. -/
def Executor.ExecutePhase (e : Executor) (fs : FS) (specName phase : String)
    (execErr valErr : Option String) (now : Nat) :
    PhaseResult × Option String × FS :=
  let result : PhaseResult :=
    { Phase := phase, Success := false, Error := none, RetryCount := 0, Exhausted := false }
  match LoadRetryState fs e.StateDir specName phase e.MaxRetries with
  | (_, some err) => (result, some ("failed to load retry state: " ++ err), fs)
  | (retryState, none) =>
      match execErr with
      | some err =>
          let result := { result with Error := some ("command execution failed: " ++ err) }
          e.handleRetryIncrement fs result retryState err "retry limit exhausted" now
      | none =>
          match valErr with
          | some err =>
              let result := { result with Error := some ("validation failed: " ++ err) }
              e.handleRetryIncrement fs result retryState err
                "validation failed and retry exhausted" now
          | none =>
              let (result, fs) := e.completePhaseSuccess fs result specName phase
              (result, none, fs)

/-! ### Task completion validation (`ValidateTasksComplete`)

`validation.GetTaskStats` and `TaskStats.IsComplete` are not part of the
sources at hand; only their caller `Executor.ValidateTasksComplete` is.
`TaskStats` is reconstructed from that caller's field accesses, and
`IsComplete` is modelled from the spec. -/

/-- Per-status task counts as produced by `validation.GetTaskStats`. -/
structure TaskStats where
  TotalTasks : Nat
  PendingTasks : Nat
  InProgressTasks : Nat
  CompletedTasks : Nat
  BlockedTasks : Nat
deriving DecidableEq, Repr

/-- Modelled from the spec: `TaskStats.IsComplete` is absent from the sources
at hand; the spec says implement-phase validation "succeeds only when the
count of non-completed tasks is zero", i.e. no pending, in-progress or
blocked tasks remain. -/
def TaskStats.IsComplete (s : TaskStats) : Bool :=
  s.PendingTasks + s.InProgressTasks + s.BlockedTasks == 0

/-- `ValidateTasksComplete`: fails with a remaining-task breakdown when the
stats are not complete.  The stats argument stands for a successful
`GetTaskStats(tasksPath)` call (its error branch just propagates the error).
Returns `none` on success, `some message` on failure. -/
def ValidateTasksComplete (stats : TaskStats) : Option String :=
  if !stats.IsComplete then
    let remaining := stats.PendingTasks + stats.InProgressTasks + stats.BlockedTasks
    if stats.BlockedTasks > 0 then
      some ("implementation incomplete: " ++ toString remaining ++ " tasks remain ("
        ++ toString stats.PendingTasks ++ " pending, "
        ++ toString stats.InProgressTasks ++ " in-progress, "
        ++ toString stats.BlockedTasks ++ " blocked)")
    else
      some ("implementation incomplete: " ++ toString remaining ++ " tasks remain ("
        ++ toString stats.PendingTasks ++ " pending, "
        ++ toString stats.InProgressTasks ++ " in-progress)")
  else
    none

/-! ### Custom agent shell routing (`internal/cliagent/custom.go`)

Go strings are UTF-8; `strings.Contains`, `strings.Fields` and
`strings.Index` are embedded on the rune (i.e. `Char`) sequence of the
string.  Byte indices and rune indices coincide in everything the embedded
logic observes: the text before the first `'='` of a field is the same rune
sequence either way, and `idx > 0` holds on byte indices iff it holds on
rune indices.  `strings.Fields` splits on `unicode.IsSpace`; the embedding
covers the ASCII whitespace characters. -/

/-- `pat` occurs at the head of the second list. -/
def leadsWith : List Char → List Char → Bool
  | [], _ => true
  | _ :: _, [] => false
  | p :: ps, c :: cs => p = c && leadsWith ps cs

/-- `strings.Contains`: `pat` occurs somewhere in the list (`subOccurs pat l`). -/
def subOccurs (pat : List Char) : List Char → Bool
  | [] => leadsWith pat []
  | c :: rest => leadsWith pat (c :: rest) || subOccurs pat rest

/-- `strings.Contains(s, sub)` on whole strings. -/
def containsStr (s sub : String) : Bool := subOccurs sub.toList s.toList

def isSpaceChar (c : Char) : Bool :=
  c = ' ' || c = '\t' || c = '\n' || c = '\r' || c = '\x0b' || c = '\x0c'

/-- Accumulator-style splitter behind `goFields` (`cur` holds the current
field reversed). -/
def fieldsGo : List Char → List Char → List (List Char)
  | cur, [] => if cur.isEmpty then [] else [cur.reverse]
  | cur, c :: rest =>
      if isSpaceChar c then
        if cur.isEmpty then fieldsGo [] rest else cur.reverse :: fieldsGo [] rest
      else fieldsGo (c :: cur) rest

/-- `strings.Fields`: split around runs of whitespace. -/
def goFields (l : List Char) : List (List Char) := fieldsGo [] l

/-- `strings.Index(l, c)` for a single-character pattern: index of the first
occurrence, `none` when absent (Go returns `-1`). -/
def idxOfEq (c : Char) : List Char → Option Nat
  | [] => none
  | d :: rest => if d = c then some 0 else (idxOfEq c rest).map (· + 1)

/-- `shellMetacharacters`: characters that require shell interpretation
(pipe, and, or, command separator, the two redirects, command substitution,
backtick substitution; the Go slice lists `"$("` twice). -/
def shellMetacharacters : List (List Char) :=
  [['|'], ['&', '&'], ['|', '|'], [';'], ['>'], ['<'], ['$', '('],
   ['\x60'], ['$', '(']]

def isEnvHeadChar (c : Char) : Bool :=
  ('A' ≤ c && c ≤ 'Z') || ('a' ≤ c && c ≤ 'z') || c = '_'

def isEnvTailChar (c : Char) : Bool :=
  isEnvHeadChar c || ('0' ≤ c && c ≤ '9')

/-- `isValidEnvVarName`: nonempty, first rune a letter or underscore, later
runes letters, digits or underscores. -/
def isValidEnvVarName : List Char → Bool
  | [] => false
  | c :: rest => isEnvHeadChar c && rest.all isEnvTailChar

/-- Lines 40-52 of `needsShell`: the first whitespace-separated field of the
template contains `'='` at a positive index and everything before that first
`'='` is a valid environment variable name. -/
def envAssignLead (tl : List Char) : Bool :=
  match goFields tl with
  | [] => false
  | first :: _ =>
      match idxOfEq '=' first with
      | none => false
      | some idx => if 0 < idx then isValidEnvVarName (first.take idx) else false

/-- `needsShell`: the template contains a shell metacharacter or uses the
environment-variable-prefix syntax (`VAR=value command`). -/
def needsShell (template : String) : Bool :=
  shellMetacharacters.any (fun m => subOccurs m template.toList)
    || envAssignLead template.toList

/-- `promptPlaceholder` = `"{{PROMPT}}"`. -/
def promptPlaceholder : String := "\x7b\x7bPROMPT\x7d\x7d"

structure CustomAgent where
  name : String
  template : String
  useShell : Bool
deriving DecidableEq, Repr

/-- `NewCustomAgent`: requires the `promptPlaceholder` in the template and
records `useShell := needsShell template` (capability flags omitted). -/
def NewCustomAgent (template : String) : Option CustomAgent :=
  if containsStr template promptPlaceholder then
    some { name := "custom", template := template, useShell := needsShell template }
  else
    none

inductive CommandRoute where
  | shell
  | direct
deriving DecidableEq, Repr

/-- The dispatch in `BuildCommand`: `sh -c` wrapping iff `useShell`. -/
def CustomAgent.BuildCommandRoute (c : CustomAgent) : CommandRoute :=
  if c.useShell then .shell else .direct

/-- The shell metacharacters named by the specification: pipe, `&&`, `||`,
command separator, the redirects, command substitution and backtick
substitution. -/
def specMetacharacterStrings : List String :=
  ["|", "&&", "||", ";", ">", "<", "$(", "\x60"]

/-- The specification's routing condition, stated in its own words: the
template contains one of the named shell metacharacters, or begins (at its
first whitespace-separated word) with a valid environment variable name
followed by `'='`. -/
def specShellRequired (t : String) : Prop :=
  (∃ m ∈ specMetacharacterStrings, containsStr t m = true) ∨
  (∃ name rest, (goFields t.toList).head? = some (name ++ '=' :: rest) ∧
    isValidEnvVarName name = true)

/-! ### Helper lemmas -/

/-- A path is never equal to itself with the `.tmp` suffix appended. -/
theorem ne_self_append_tmp (s : String) : s ≠ s ++ ".tmp" := by
  intro h
  have hl : s.length = (s ++ ".tmp").length := by rw [← h]
  rw [String.length_append] at hl
  have : (".tmp" : String).length = 4 := by decide
  omega

/-- `LoadRetryState` returns a nil error in every branch. -/
theorem load_snd_none (fs : FS) (stateDir specName phase : String) (m : Int) :
    (LoadRetryState fs stateDir specName phase m).2 = none := by
  cases h : loadStore fs stateDir with
  | error e => simp [LoadRetryState, h]
  | ok store =>
      cases hk : lookupA store.Retries (retryKey specName phase) <;>
        simp [LoadRetryState, h, hk]

/-- `LoadRetryState` as a pair whose error component is syntactically `none`. -/
theorem load_eta (fs : FS) (stateDir specName phase : String) (m : Int) :
    LoadRetryState fs stateDir specName phase m =
      ((LoadRetryState fs stateDir specName phase m).1, none) := by
  cases h : loadStore fs stateDir with
  | error e => simp [LoadRetryState, h]
  | ok store =>
      cases hk : lookupA store.Retries (retryKey specName phase) <;>
        simp [LoadRetryState, h, hk]

/-- The record returned by `LoadRetryState` always carries the supplied
ceiling. -/
theorem load_fst_maxRetries (fs : FS) (stateDir specName phase : String) (m : Int) :
    (LoadRetryState fs stateDir specName phase m).1.MaxRetries = m := by
  cases h : loadStore fs stateDir with
  | error e => simp [LoadRetryState, h]
  | ok store =>
      cases hk : lookupA store.Retries (retryKey specName phase) <;>
        simp [LoadRetryState, h, hk]

/-- `SaveRetryState` leaves the updated store under the canonical path. -/
theorem save_canonical (fs : FS) (stateDir : String) (st : RetryState) :
    lookupA (SaveRetryState fs stateDir st) (retryPath stateDir) =
      some (.storeFile ⟨insertA
        (match loadStore fs stateDir with
          | .error _ => []
          | .ok s => s.Retries)
        (retryKey st.SpecName st.Phase) st⟩) := by
  unfold SaveRetryState fsRename fsWrite
  simp only [lookupA_insertA_self]
  cases loadStore fs stateDir <;> rfl

/-- `SaveRetryState` removes the temporary file. -/
theorem save_tmp_removed (fs : FS) (stateDir : String) (st : RetryState) :
    lookupA (SaveRetryState fs stateDir st) (retryPath stateDir ++ ".tmp") = none := by
  unfold SaveRetryState fsRename fsWrite
  simp only [lookupA_insertA_self]
  rw [lookupA_insertA_ne _ _ _ _ (Ne.symm (ne_self_append_tmp _))]
  exact lookupA_removeA_self _ _

/-- `SaveRetryState` touches no path other than the canonical file and the
temporary file. -/
theorem save_frame (fs : FS) (stateDir : String) (st : RetryState) (p : String)
    (hc : p ≠ retryPath stateDir) (ht : p ≠ retryPath stateDir ++ ".tmp") :
    lookupA (SaveRetryState fs stateDir st) p = lookupA fs p := by
  unfold SaveRetryState fsRename fsWrite
  simp only [lookupA_insertA_self]
  rw [lookupA_insertA_ne _ _ _ _ hc, lookupA_removeA_ne _ _ _ ht,
    lookupA_insertA_ne _ _ _ _ ht]

/-- `ResetRetryCount` reduced: save the reset of whatever `Load` returned
(the dead load-error branch removed). -/
theorem resetRetryCount_eq (fs : FS) (stateDir specName phase : String) :
    ResetRetryCount fs stateDir specName phase =
      SaveRetryState fs stateDir ((LoadRetryState fs stateDir specName phase 3).1).Reset := by
  unfold ResetRetryCount
  rw [load_eta]

/-- `incrementTrace r ts` performs one `Increment` per element of `ts`,
threading the record through; `ts` supplies the successive clock values. -/
def incrementTrace : RetryState → List Nat → RetryState
  | r, [] => r
  | r, now :: rest => incrementTrace (r.Increment now).1 rest

theorem increment_fst_maxRetries (r : RetryState) (now : Nat) :
    ((r.Increment now).1).MaxRetries = r.MaxRetries := by
  unfold RetryState.Increment
  split <;> rfl

theorem increment_fst_count_le (r : RetryState) (now : Nat)
    (h : r.Count ≤ r.MaxRetries) : ((r.Increment now).1).Count ≤ r.MaxRetries := by
  unfold RetryState.Increment RetryState.CanRetry
  by_cases hc : r.Count < r.MaxRetries
  · simp [hc]
    omega
  · simp [hc]
    exact h

theorem incrementTrace_count_le (ts : List Nat) :
    ∀ r : RetryState, r.Count ≤ r.MaxRetries →
      (incrementTrace r ts).Count ≤ r.MaxRetries := by
  induction ts with
  | nil => intro r h; exact h
  | cons now rest ih =>
      intro r h
      have h1 := increment_fst_count_le r now h
      have h2 := increment_fst_maxRetries r now
      have := ih ((r.Increment now).1) (by rw [h2]; exact h1)
      rw [h2] at this
      exact this

/-! ### Claims -/

/-- C1: for every retry record with ceiling `N`, no sequence of `Increment`
calls makes the count exceed `N` (starting from any count at most `N`);
while `count < N`, `Increment` adds exactly 1, refreshes the last-attempt
timestamp and returns no error; once `count >= N`, `Increment` returns an
exhaustion error carrying the spec name, phase, count and ceiling, and
leaves the record (count and timestamp included) unchanged. -/
theorem increment_ceiling_invariant (r : RetryState) (now : Nat) (ts : List Nat) :
    (r.Count ≤ r.MaxRetries → (incrementTrace r ts).Count ≤ r.MaxRetries) ∧
    (r.Count < r.MaxRetries →
      r.Increment now = ({ r with Count := r.Count + 1, LastAttempt := now }, none)) ∧
    (r.MaxRetries ≤ r.Count →
      r.Increment now = (r, some ⟨r.SpecName, r.Phase, r.Count, r.MaxRetries⟩)) := by
  refine ⟨fun h => incrementTrace_count_le ts r h, fun h => ?_, fun h => ?_⟩
  · unfold RetryState.Increment RetryState.CanRetry
    simp [h]
  · unfold RetryState.Increment RetryState.CanRetry
    have : ¬ r.Count < r.MaxRetries := by omega
    simp [this]

/-- Witness for C1 at concrete inputs: a ceiling-3 record keeps its count at
most 3 over five increments; an under-ceiling increment adds one and stamps
the time; an at-ceiling increment errors with the record's fields. -/
theorem increment_ceiling_invariant_witness :
    (incrementTrace ⟨"auth", "plan", 0, 0, 3⟩ [1, 2, 3, 4, 5]).Count ≤ 3 ∧
    RetryState.Increment ⟨"auth", "plan", 0, 0, 3⟩ 7 = (⟨"auth", "plan", 0 + 1, 7, 3⟩, none) ∧
    RetryState.Increment ⟨"auth", "plan", 3, 9, 3⟩ 7 =
      (⟨"auth", "plan", 3, 9, 3⟩, some ⟨"auth", "plan", 3, 3⟩) :=
  ⟨(increment_ceiling_invariant ⟨"auth", "plan", 0, 0, 3⟩ 7 [1, 2, 3, 4, 5]).1 (by decide),
   (increment_ceiling_invariant ⟨"auth", "plan", 0, 0, 3⟩ 7 []).2.1 (by decide),
   (increment_ceiling_invariant ⟨"auth", "plan", 3, 9, 3⟩ 7 []).2.2 (by decide)⟩

/-- C4: if the ledger file exists but is unparseable, `LoadRetryState`
returns a fresh count-0 record carrying the supplied ceiling, with a nil
error. -/
theorem load_corrupt_fresh (fs : FS) (stateDir specName phase : String) (m : Int)
    (raw : String) (h : lookupA fs (retryPath stateDir) = some (.corrupt raw)) :
    LoadRetryState fs stateDir specName phase m = (⟨specName, phase, 0, 0, m⟩, none) := by
  simp [LoadRetryState, loadStore, h]

/-- Witness for C4: a state directory whose `retry.json` holds unparseable
bytes yields the fresh record with the supplied ceiling 4. -/
theorem load_corrupt_fresh_witness :
    LoadRetryState [("dir/retry.json", FileContent.corrupt "not json")] "dir" "s" "p" 4 =
      (⟨"s", "p", 0, 0, 4⟩, none) :=
  load_corrupt_fresh _ "dir" "s" "p" 4 "not json" (by decide)

/-- C7: `Save` followed by `Load` for the same `spec:phase` key (with the
record's own ceiling as the run ceiling) returns exactly the record that was
saved — count, last-attempt timestamp and ceiling all preserved — with a
nil error. -/
theorem save_load_round_trip (fs : FS) (stateDir : String) (st : RetryState) :
    LoadRetryState (SaveRetryState fs stateDir st) stateDir st.SpecName st.Phase
      st.MaxRetries = (st, none) := by
  have hc := save_canonical fs stateDir st
  simp [LoadRetryState, loadStore, hc, lookupA_insertA_self]

/-- C10: `LoadRetryState` returns a nil error for every input; in particular
a missing ledger file and an unreadable ledger file both yield the fresh
zero-count record rather than an error. -/
theorem load_never_errors (fs : FS) (stateDir specName phase : String) (m : Int) :
    (LoadRetryState fs stateDir specName phase m).2 = none ∧
    (lookupA fs (retryPath stateDir) = none →
      LoadRetryState fs stateDir specName phase m = (⟨specName, phase, 0, 0, m⟩, none)) ∧
    (lookupA fs (retryPath stateDir) = some .unreadable →
      LoadRetryState fs stateDir specName phase m = (⟨specName, phase, 0, 0, m⟩, none)) := by
  refine ⟨load_snd_none fs stateDir specName phase m, fun h => ?_, fun h => ?_⟩
  · simp [LoadRetryState, loadStore, h]
  · simp [LoadRetryState, loadStore, h]

/-- Witness for C10: a missing file and an unreadable file both load as the
fresh record with a nil error. -/
theorem load_never_errors_witness :
    LoadRetryState [] "dir" "s" "p" 2 = (⟨"s", "p", 0, 0, 2⟩, none) ∧
    LoadRetryState [("dir/retry.json", FileContent.unreadable)] "dir" "s" "p" 2 =
      (⟨"s", "p", 0, 0, 2⟩, none) :=
  ⟨(load_never_errors [] "dir" "s" "p" 2).2.1 (by decide),
   (load_never_errors [("dir/retry.json", FileContent.unreadable)] "dir" "s" "p" 2).2.2
     (by decide)⟩

/-- Every entry of the decoded ledger (when it decodes at all) sits under the
key joined from its own `SpecName` and `Phase` fields.  `SaveRetryState`
only ever writes entries of this shape, so the property is an invariant of
every ledger the program itself produced. -/
def ledgerKeyConsistent (fs : FS) (stateDir : String) : Bool :=
  match loadStore fs stateDir with
  | .error _ => true
  | .ok s => s.Retries.all (fun e => retryKey e.2.SpecName e.2.Phase == e.1)

/-- After `ResetRetryCount`, loading the same `(spec, phase)` pair (with any
run ceiling) sees count 0. -/
theorem reset_load_count_zero (fs : FS) (stateDir specName phase : String) (m : Int)
    (hcons : ledgerKeyConsistent fs stateDir = true) :
    (LoadRetryState (ResetRetryCount fs stateDir specName phase) stateDir specName
        phase m).1.Count = 0 := by
  rw [resetRetryCount_eq]
  set st0 := (LoadRetryState fs stateDir specName phase 3).1 with hst0
  have hkey : retryKey st0.SpecName st0.Phase = retryKey specName phase := by
    cases hls : loadStore fs stateDir with
    | error e => simp [hst0, LoadRetryState, hls]
    | ok s =>
        cases hlk : lookupA s.Retries (retryKey specName phase) with
        | none => simp [hst0, LoadRetryState, hls, hlk]
        | some st =>
            have hmem := lookupA_mem _ _ _ hlk
            unfold ledgerKeyConsistent at hcons
            rw [hls] at hcons
            have hall := List.all_eq_true.mp hcons _ hmem
            have heq : retryKey st.SpecName st.Phase = retryKey specName phase := by
              simpa using hall
            simp [hst0, LoadRetryState, hls, hlk]
            exact heq
  have hkey' : retryKey st0.Reset.SpecName st0.Reset.Phase = retryKey specName phase := hkey
  have hc := save_canonical fs stateDir st0.Reset
  rw [hkey'] at hc
  simp only [LoadRetryState, loadStore, hc, lookupA_insertA_self]
  rfl

/-- C3: a successful phase attempt (no execution error, validation passes)
returns `PhaseResult{Success:true, RetryCount:0}` with a nil error, and the
persisted retry count for the `(spec, phase)` pair — even when it was
non-zero before — reads back as 0 under any run ceiling. -/
theorem execute_phase_success_resets (e : Executor) (fs : FS) (specName phase : String)
    (now : Nat) (hcons : ledgerKeyConsistent fs e.StateDir = true) :
    e.ExecutePhase fs specName phase none none now =
      ({ Phase := phase, Success := true, Error := none, RetryCount := 0,
         Exhausted := false }, none, ResetRetryCount fs e.StateDir specName phase) ∧
    ∀ m : Int, (LoadRetryState (ResetRetryCount fs e.StateDir specName phase)
        e.StateDir specName phase m).1.Count = 0 := by
  constructor
  · unfold Executor.ExecutePhase
    rw [load_eta]
    rfl
  · intro m
    exact reset_load_count_zero fs e.StateDir specName phase m hcons

/-- Witness for C3: a ledger holding count 2 for `s:p`; the successful
attempt returns success with retry count 0 and the reloaded count is 0. -/
theorem execute_phase_success_resets_witness :
    Executor.ExecutePhase ⟨"st", "sp", 3⟩
        [("st/retry.json", FileContent.storeFile ⟨[("s:p", ⟨"s", "p", 2, 44, 3⟩)]⟩)]
        "s" "p" none none 9 =
      ({ Phase := "p", Success := true, Error := none, RetryCount := 0,
         Exhausted := false }, none,
       ResetRetryCount [("st/retry.json", FileContent.storeFile
         ⟨[("s:p", ⟨"s", "p", 2, 44, 3⟩)]⟩)] "st" "s" "p") ∧
    (LoadRetryState (ResetRetryCount
        [("st/retry.json", FileContent.storeFile ⟨[("s:p", ⟨"s", "p", 2, 44, 3⟩)]⟩)]
        "st" "s" "p") "st" "s" "p" 3).1.Count = 0 := by
  have h := execute_phase_success_resets ⟨"st", "sp", 3⟩
    [("st/retry.json", FileContent.storeFile ⟨[("s:p", ⟨"s", "p", 2, 44, 3⟩)]⟩)]
    "s" "p" 9 (by decide)
  exact ⟨h.1, h.2 3⟩

/-- `handleRetryIncrement` when budget remains. -/
theorem handleRetryIncrement_budget (e : Executor) (fs : FS) (result : PhaseResult)
    (rs : RetryState) (origErr msg : String) (now : Nat)
    (h : rs.Count < rs.MaxRetries) :
    e.handleRetryIncrement fs result rs origErr msg now =
      ({ result with RetryCount := rs.Count + 1 }, result.Error,
       SaveRetryState fs e.StateDir { rs with Count := rs.Count + 1, LastAttempt := now }) := by
  unfold Executor.handleRetryIncrement RetryState.Increment RetryState.CanRetry
  simp [h]

/-- `handleRetryIncrement` when the record is exhausted. -/
theorem handleRetryIncrement_exhausted (e : Executor) (fs : FS) (result : PhaseResult)
    (rs : RetryState) (origErr msg : String) (now : Nat)
    (h : rs.MaxRetries ≤ rs.Count) :
    e.handleRetryIncrement fs result rs origErr msg now =
      ({ result with Exhausted := true, RetryCount := rs.Count },
       some (msg ++ ": " ++ origErr), SaveRetryState fs e.StateDir rs) := by
  unfold Executor.handleRetryIncrement RetryState.Increment RetryState.CanRetry
  have hn : ¬ rs.Count < rs.MaxRetries := by omega
  simp [hn]

/-- `ExecutePhase` on an execution error reduces to `handleRetryIncrement`
with the wrapped error on the result and `"retry limit exhausted"` as the
exhaustion message. -/
theorem executePhase_execFail (e : Executor) (fs : FS) (specName phase err : String)
    (now : Nat) :
    e.ExecutePhase fs specName phase (some err) none now =
      e.handleRetryIncrement fs
        { Phase := phase, Success := false,
          Error := some ("command execution failed: " ++ err),
          RetryCount := 0, Exhausted := false }
        ((LoadRetryState fs e.StateDir specName phase e.MaxRetries).1) err
        "retry limit exhausted" now := by
  unfold Executor.ExecutePhase
  rw [load_eta]

/-- `ExecutePhase` on a validation error reduces to `handleRetryIncrement`
with the wrapped error on the result and `"validation failed and retry
exhausted"` as the exhaustion message. -/
theorem executePhase_valFail (e : Executor) (fs : FS) (specName phase err : String)
    (now : Nat) :
    e.ExecutePhase fs specName phase none (some err) now =
      e.handleRetryIncrement fs
        { Phase := phase, Success := false,
          Error := some ("validation failed: " ++ err),
          RetryCount := 0, Exhausted := false }
        ((LoadRetryState fs e.StateDir specName phase e.MaxRetries).1) err
        "validation failed and retry exhausted" now := by
  unfold Executor.ExecutePhase
  rw [load_eta]

/-- C2 (amended): on a failing attempt, if budget remains `ExecutePhase`
persists the incremented record and returns `Success:false`,
`RetryCount = new count`, `Exhausted:false` carrying the wrapped original
error; if the increment reports exhaustion it sets `Exhausted:true`,
persists the unmodified record, and returns an error wrapping the original
cause under the message `"retry limit exhausted"` for execution failures
and `"validation failed and retry exhausted"` for validation failures. -/
theorem execute_phase_failure_handling (e : Executor) (fs : FS)
    (specName phase err : String) (now : Nat) (rs : RetryState)
    (hrs : rs = (LoadRetryState fs e.StateDir specName phase e.MaxRetries).1) :
    (rs.Count < e.MaxRetries →
      e.ExecutePhase fs specName phase (some err) none now =
        ({ Phase := phase, Success := false,
           Error := some ("command execution failed: " ++ err),
           RetryCount := rs.Count + 1, Exhausted := false },
         some ("command execution failed: " ++ err),
         SaveRetryState fs e.StateDir
           { rs with Count := rs.Count + 1, LastAttempt := now }) ∧
      e.ExecutePhase fs specName phase none (some err) now =
        ({ Phase := phase, Success := false,
           Error := some ("validation failed: " ++ err),
           RetryCount := rs.Count + 1, Exhausted := false },
         some ("validation failed: " ++ err),
         SaveRetryState fs e.StateDir
           { rs with Count := rs.Count + 1, LastAttempt := now })) ∧
    (e.MaxRetries ≤ rs.Count →
      e.ExecutePhase fs specName phase (some err) none now =
        ({ Phase := phase, Success := false,
           Error := some ("command execution failed: " ++ err),
           RetryCount := rs.Count, Exhausted := true },
         some ("retry limit exhausted: " ++ err),
         SaveRetryState fs e.StateDir rs) ∧
      e.ExecutePhase fs specName phase none (some err) now =
        ({ Phase := phase, Success := false,
           Error := some ("validation failed: " ++ err),
           RetryCount := rs.Count, Exhausted := true },
         some ("validation failed and retry exhausted: " ++ err),
         SaveRetryState fs e.StateDir rs)) := by
  have hm := load_fst_maxRetries fs e.StateDir specName phase e.MaxRetries
  rw [← hrs] at hm
  constructor
  · intro h
    have h' : rs.Count < rs.MaxRetries := by rw [hm]; exact h
    constructor
    · rw [executePhase_execFail, ← hrs,
        handleRetryIncrement_budget e fs _ rs err "retry limit exhausted" now h']
    · rw [executePhase_valFail, ← hrs,
        handleRetryIncrement_budget e fs _ rs err
          "validation failed and retry exhausted" now h']
  · intro h
    have h' : rs.MaxRetries ≤ rs.Count := by rw [hm]; exact h
    constructor
    · rw [executePhase_execFail, ← hrs,
        handleRetryIncrement_exhausted e fs _ rs err "retry limit exhausted" now h']
      rfl
    · rw [executePhase_valFail, ← hrs,
        handleRetryIncrement_exhausted e fs _ rs err
          "validation failed and retry exhausted" now h']
      rfl

/-- Witness for C2: with ceiling 2, a fresh record under budget gives an
execution failure with retry count 1; an at-ceiling record and a validation
failure gives the exhausted result with the wrapped cause. -/
theorem execute_phase_failure_handling_witness :
    Executor.ExecutePhase ⟨"st", "sp", 2⟩ [] "s" "p" (some "boom") none 9 =
      ({ Phase := "p", Success := false,
         Error := some ("command execution failed: " ++ "boom"),
         RetryCount := 0 + 1, Exhausted := false },
       some ("command execution failed: " ++ "boom"),
       SaveRetryState [] "st" ⟨"s", "p", 0 + 1, 9, 2⟩) ∧
    Executor.ExecutePhase ⟨"st", "sp", 2⟩
        [("st/retry.json", FileContent.storeFile ⟨[("s:p", ⟨"s", "p", 2, 5, 2⟩)]⟩)]
        "s" "p" none (some "boom") 9 =
      ({ Phase := "p", Success := false,
         Error := some ("validation failed: " ++ "boom"),
         RetryCount := 2, Exhausted := true },
       some ("validation failed and retry exhausted: " ++ "boom"),
       SaveRetryState
         [("st/retry.json", FileContent.storeFile ⟨[("s:p", ⟨"s", "p", 2, 5, 2⟩)]⟩)]
         "st" ⟨"s", "p", 2, 5, 2⟩) := by
  have h1 := (execute_phase_failure_handling ⟨"st", "sp", 2⟩ [] "s" "p" "boom" 9
    ⟨"s", "p", 0, 0, 2⟩ (by decide)).1 (by decide)
  have h2 := (execute_phase_failure_handling ⟨"st", "sp", 2⟩
    [("st/retry.json", FileContent.storeFile ⟨[("s:p", ⟨"s", "p", 2, 5, 2⟩)]⟩)]
    "s" "p" "boom" 9 ⟨"s", "p", 2, 5, 2⟩ (by decide)).2 (by decide)
  exact ⟨h1.1, h2.2⟩

/-- Counterexample for C2 as stated: when the failing attempt is a
validation failure and the record is exhausted, the returned error message
does not wrap `"retry limit exhausted"`; it reads
`"validation failed and retry exhausted: ..."`. -/
theorem retry_exhausted_message_counterexample :
    (Executor.ExecutePhase ⟨"st", "sp", 2⟩
        [("st/retry.json", FileContent.storeFile ⟨[("s:p", ⟨"s", "p", 2, 5, 2⟩)]⟩)]
        "s" "p" none (some "boom") 9).2.1 =
      some "validation failed and retry exhausted: boom" ∧
    containsStr "validation failed and retry exhausted: boom"
      "retry limit exhausted" = false := by
  decide

/-- C8: saving a record over a well-formed existing ledger rewrites the
whole store: the entry under the record's `spec:phase` key becomes the
record and every other key keeps its previous value. -/
theorem save_merges_preserving_others (fs : FS) (stateDir : String) (st : RetryState)
    (s0 : RetryStore) (h : lookupA fs (retryPath stateDir) = some (.storeFile s0)) :
    lookupA (SaveRetryState fs stateDir st) (retryPath stateDir) =
      some (.storeFile ⟨insertA s0.Retries (retryKey st.SpecName st.Phase) st⟩) ∧
    lookupA (insertA s0.Retries (retryKey st.SpecName st.Phase) st)
      (retryKey st.SpecName st.Phase) = some st ∧
    ∀ k, k ≠ retryKey st.SpecName st.Phase →
      lookupA (insertA s0.Retries (retryKey st.SpecName st.Phase) st) k =
        lookupA s0.Retries k := by
  have hl : loadStore fs stateDir = .ok s0 := by simp [loadStore, h]
  have hc := save_canonical fs stateDir st
  rw [hl] at hc
  exact ⟨hc, lookupA_insertA_self _ _ _, fun k hk => lookupA_insertA_ne _ _ _ _ hk⟩

/-- Witness for C8: saving `s:p` into a two-entry ledger updates `s:p` and
leaves `a:b` untouched. -/
theorem save_merges_preserving_others_witness :
    lookupA (SaveRetryState
        [("dir/retry.json", FileContent.storeFile
          ⟨[("a:b", ⟨"a", "b", 1, 5, 3⟩), ("s:p", ⟨"s", "p", 2, 6, 3⟩)]⟩)]
        "dir" ⟨"s", "p", 3, 7, 3⟩) (retryPath "dir") =
      some (FileContent.storeFile ⟨insertA
        [("a:b", ⟨"a", "b", 1, 5, 3⟩), ("s:p", ⟨"s", "p", 2, 6, 3⟩)]
        (retryKey "s" "p") ⟨"s", "p", 3, 7, 3⟩⟩) ∧
    lookupA (insertA [("a:b", ⟨"a", "b", 1, 5, 3⟩), ("s:p", ⟨"s", "p", 2, 6, 3⟩)]
      (retryKey "s" "p") (⟨"s", "p", 3, 7, 3⟩ : RetryState)) (retryKey "s" "p") =
      some ⟨"s", "p", 3, 7, 3⟩ ∧
    lookupA (insertA [("a:b", ⟨"a", "b", 1, 5, 3⟩), ("s:p", ⟨"s", "p", 2, 6, 3⟩)]
      (retryKey "s" "p") (⟨"s", "p", 3, 7, 3⟩ : RetryState)) "a:b" =
      lookupA [("a:b", (⟨"a", "b", 1, 5, 3⟩ : RetryState)),
        ("s:p", ⟨"s", "p", 2, 6, 3⟩)] "a:b" := by
  have h := save_merges_preserving_others
    [("dir/retry.json", FileContent.storeFile
      ⟨[("a:b", ⟨"a", "b", 1, 5, 3⟩), ("s:p", ⟨"s", "p", 2, 6, 3⟩)]⟩)]
    "dir" ⟨"s", "p", 3, 7, 3⟩
    ⟨[("a:b", ⟨"a", "b", 1, 5, 3⟩), ("s:p", ⟨"s", "p", 2, 6, 3⟩)]⟩ (by decide)
  exact ⟨h.1, h.2.1, h.2.2 "a:b" (by decide)⟩

/-- Counterexample for C5: a ledger whose file holds corrupt bytes, followed
by a successful `Save`, ends with the corrupt content gone entirely — the
filesystem holds only the canonical file with the fresh store, and no path
(backup or otherwise) retains the corrupt bytes. -/
theorem save_after_corrupt_no_backup_counterexample :
    SaveRetryState [("dir/retry.json", FileContent.corrupt "xyz")] "dir"
        ⟨"s", "p", 0, 0, 3⟩ =
      [("dir/retry.json", FileContent.storeFile ⟨[("s:p", ⟨"s", "p", 0, 0, 3⟩)]⟩)] ∧
    (SaveRetryState [("dir/retry.json", FileContent.corrupt "xyz")] "dir"
        ⟨"s", "p", 0, 0, 3⟩).all
      (fun e => !(e.2 == FileContent.corrupt "xyz")) = true := by
  decide

/-- C5 (amended): after `Load` encounters a corrupt ledger file, the next
successful `Save` simply overwrites the canonical file (via temp + rename)
with a fresh store containing only the saved record; it creates no backup —
no path other than the canonical file and the removed temp file is written,
so the corrupt content is lost. -/
theorem save_after_corrupt_overwrites (fs : FS) (stateDir : String) (st : RetryState)
    (raw : String) (h : lookupA fs (retryPath stateDir) = some (.corrupt raw)) :
    lookupA (SaveRetryState fs stateDir st) (retryPath stateDir) =
      some (.storeFile ⟨[(retryKey st.SpecName st.Phase, st)]⟩) ∧
    lookupA (SaveRetryState fs stateDir st) (retryPath stateDir ++ ".tmp") = none ∧
    ∀ p, p ≠ retryPath stateDir → p ≠ retryPath stateDir ++ ".tmp" →
      lookupA (SaveRetryState fs stateDir st) p = lookupA fs p := by
  have hl : loadStore fs stateDir = .error .parseFailed := by simp [loadStore, h]
  have hc := save_canonical fs stateDir st
  rw [hl] at hc
  exact ⟨hc, save_tmp_removed fs stateDir st,
    fun p hp ht => save_frame fs stateDir st p hp ht⟩

/-- Witness for C5's amended statement at a concrete corrupt ledger with a
bystander file. -/
theorem save_after_corrupt_overwrites_witness :
    lookupA (SaveRetryState
        [("dir/retry.json", FileContent.corrupt "xyz"),
         ("dir/other.json", FileContent.corrupt "keep")]
        "dir" ⟨"s", "p", 0, 0, 3⟩) (retryPath "dir") =
      some (FileContent.storeFile ⟨[(retryKey "s" "p", ⟨"s", "p", 0, 0, 3⟩)]⟩) ∧
    lookupA (SaveRetryState
        [("dir/retry.json", FileContent.corrupt "xyz"),
         ("dir/other.json", FileContent.corrupt "keep")]
        "dir" ⟨"s", "p", 0, 0, 3⟩) (retryPath "dir" ++ ".tmp") = none ∧
    lookupA (SaveRetryState
        [("dir/retry.json", FileContent.corrupt "xyz"),
         ("dir/other.json", FileContent.corrupt "keep")]
        "dir" ⟨"s", "p", 0, 0, 3⟩) "dir/other.json" =
      lookupA [("dir/retry.json", FileContent.corrupt "xyz"),
         ("dir/other.json", FileContent.corrupt "keep")] "dir/other.json" := by
  have h := save_after_corrupt_overwrites
    [("dir/retry.json", FileContent.corrupt "xyz"),
     ("dir/other.json", FileContent.corrupt "keep")]
    "dir" ⟨"s", "p", 0, 0, 3⟩ "xyz" (by decide)
  exact ⟨h.1, h.2.1, h.2.2 "dir/other.json" (by decide) (by decide)⟩

/-- Counterexample for C6 as stated: for 10 tasks with 7 completed, 2
pending, 1 blocked, the failure message is
`"implementation incomplete: 3 tasks remain (2 pending, 0 in-progress, 1
blocked)"`; it does not contain the claimed breakdown
`"3 tasks remain (2 pending, 1 blocked)"`. -/
theorem tasks_remaining_message_counterexample :
    ValidateTasksComplete ⟨10, 2, 0, 7, 1⟩ =
      some "implementation incomplete: 3 tasks remain (2 pending, 0 in-progress, 1 blocked)" ∧
    containsStr
      "implementation incomplete: 3 tasks remain (2 pending, 0 in-progress, 1 blocked)"
      "3 tasks remain (2 pending, 1 blocked)" = false := by
  decide

/-- C6 (amended): implement-phase completion validation succeeds iff the
count of non-completed tasks is zero; on failure the message reports the
total remaining count with a breakdown that always includes the in-progress
count, so 10 tasks with 7 completed, 2 pending and 1 blocked fail with
`"implementation incomplete: 3 tasks remain (2 pending, 0 in-progress, 1
blocked)"`. -/
theorem validate_tasks_complete_spec (stats : TaskStats) :
    (ValidateTasksComplete stats = none ↔
      stats.PendingTasks + stats.InProgressTasks + stats.BlockedTasks = 0) ∧
    ValidateTasksComplete ⟨10, 2, 0, 7, 1⟩ =
      some "implementation incomplete: 3 tasks remain (2 pending, 0 in-progress, 1 blocked)" := by
  constructor
  · unfold ValidateTasksComplete TaskStats.IsComplete
    by_cases h : stats.PendingTasks + stats.InProgressTasks + stats.BlockedTasks = 0
    · simp [h]
    · by_cases hb : stats.BlockedTasks > 0 <;> simp [h, hb]
  · decide

/-! ### Shell-routing equivalence (C9) -/

theorem take_len_append {α : Type} (l1 l2 : List α) :
    (l1 ++ l2).take l1.length = l1 := by
  induction l1 with
  | nil => simp
  | cons a tl ih => simp [ih]

theorem idxOfEq_decomp (c : Char) :
    ∀ (l : List Char) (i : Nat), idxOfEq c l = some i →
      l = l.take i ++ c :: l.drop (i + 1) ∧ ∀ d ∈ l.take i, d ≠ c := by
  intro l
  induction l with
  | nil => intro i h; simp [idxOfEq] at h
  | cons d rest ih =>
      intro i h
      by_cases hd : d = c
      · subst hd
        simp [idxOfEq] at h
        subst h
        simp
      · simp [idxOfEq, hd] at h
        obtain ⟨j, hj, hji⟩ := h
        subst hji
        obtain ⟨h1, h2⟩ := ih j hj
        constructor
        · calc d :: rest = d :: (rest.take j ++ c :: rest.drop (j + 1)) := by rw [← h1]
            _ = (d :: rest).take (j + 1) ++ c :: (d :: rest).drop (j + 1 + 1) := by
              simp [List.take, List.drop]
        · intro x hx
          simp [List.take] at hx
          rcases hx with rfl | hmem
          · exact hd
          · exact h2 x hmem

theorem idxOfEq_append (c : Char) (name rest : List Char)
    (h : ∀ d ∈ name, d ≠ c) :
    idxOfEq c (name ++ c :: rest) = some name.length := by
  induction name with
  | nil => simp [idxOfEq]
  | cons d tl ih =>
      have hd : d ≠ c := h d (by simp)
      have ih' := ih (fun x hx => h x (by simp [hx]))
      show (if d = c then some 0 else (idxOfEq c (tl ++ c :: rest)).map (· + 1)) =
        some (d :: tl).length
      rw [if_neg hd, ih']
      rfl

theorem validEnvVarName_no_eq (name : List Char)
    (h : isValidEnvVarName name = true) : ∀ d ∈ name, d ≠ '=' := by
  cases name with
  | nil => simp [isValidEnvVarName] at h
  | cons c rest =>
      simp [isValidEnvVarName] at h
      obtain ⟨h1, h2⟩ := h
      intro d hd
      rcases List.mem_cons.mp hd with rfl | hmem
      · intro heq
        rw [heq] at h1
        exact absurd h1 (by decide)
      · intro heq
        have := h2 d hmem
        rw [heq] at this
        exact absurd this (by decide)

theorem validEnvVarName_ne_nil (name : List Char)
    (h : isValidEnvVarName name = true) : name ≠ [] := by
  cases name with
  | nil => simp [isValidEnvVarName] at h
  | cons c rest => simp

/-- The environment-assignment check of `needsShell` holds iff the first
whitespace-separated field decomposes as a valid variable name followed by
`'='`. -/
theorem envAssignLead_iff (tl : List Char) :
    envAssignLead tl = true ↔
      ∃ name rest, (goFields tl).head? = some (name ++ '=' :: rest) ∧
        isValidEnvVarName name = true := by
  unfold envAssignLead
  cases hf : goFields tl with
  | nil => simp
  | cons first others =>
      simp only [List.head?_cons, Option.some.injEq]
      constructor
      · intro h
        cases hi : idxOfEq '=' first with
        | none => rw [hi] at h; simp at h
        | some idx =>
            rw [hi] at h
            replace h : (if 0 < idx then isValidEnvVarName (first.take idx)
              else false) = true := h
            by_cases hidx : 0 < idx
            · rw [if_pos hidx] at h
              obtain ⟨hdec, _⟩ := idxOfEq_decomp '=' first idx hi
              exact ⟨first.take idx, first.drop (idx + 1), hdec, h⟩
            · rw [if_neg hidx] at h
              simp at h
      · rintro ⟨name, rest, hfirst, hvalid⟩
        subst hfirst
        have hno := validEnvVarName_no_eq name hvalid
        rw [idxOfEq_append '=' name rest hno]
        have hlen : 0 < name.length :=
          List.length_pos.mpr (validEnvVarName_ne_nil name hvalid)
        show (if 0 < name.length then
          isValidEnvVarName ((name ++ '=' :: rest).take name.length) else false) = true
        rw [if_pos hlen, take_len_append]
        exact hvalid

/-- The metacharacter scan of `needsShell` holds iff the template contains
one of the metacharacter strings named by the spec (the Go slice's duplicate
`"$("` entry collapses). -/
theorem metachars_iff (t : String) :
    shellMetacharacters.any (fun m => subOccurs m t.toList) = true ↔
      ∃ m ∈ specMetacharacterStrings, containsStr t m = true := by
  constructor
  · intro h
    rw [List.any_eq_true] at h
    obtain ⟨m, hm, hsub⟩ := h
    simp only [shellMetacharacters, List.mem_cons, List.not_mem_nil, or_false] at hm
    rcases hm with rfl | rfl | rfl | rfl | rfl | rfl | rfl | rfl | rfl
    · exact ⟨"|", by simp [specMetacharacterStrings], hsub⟩
    · exact ⟨"&&", by simp [specMetacharacterStrings], hsub⟩
    · exact ⟨"||", by simp [specMetacharacterStrings], hsub⟩
    · exact ⟨";", by simp [specMetacharacterStrings], hsub⟩
    · exact ⟨">", by simp [specMetacharacterStrings], hsub⟩
    · exact ⟨"<", by simp [specMetacharacterStrings], hsub⟩
    · exact ⟨"$(", by simp [specMetacharacterStrings], hsub⟩
    · exact ⟨"\x60", by simp [specMetacharacterStrings], hsub⟩
    · exact ⟨"$(", by simp [specMetacharacterStrings], hsub⟩
  · rintro ⟨m, hm, hcont⟩
    rw [List.any_eq_true]
    simp only [specMetacharacterStrings, List.mem_cons, List.not_mem_nil, or_false] at hm
    rcases hm with rfl | rfl | rfl | rfl | rfl | rfl | rfl | rfl
    · exact ⟨['|'], by simp [shellMetacharacters], hcont⟩
    · exact ⟨['&', '&'], by simp [shellMetacharacters], hcont⟩
    · exact ⟨['|', '|'], by simp [shellMetacharacters], hcont⟩
    · exact ⟨[';'], by simp [shellMetacharacters], hcont⟩
    · exact ⟨['>'], by simp [shellMetacharacters], hcont⟩
    · exact ⟨['<'], by simp [shellMetacharacters], hcont⟩
    · exact ⟨['$', '('], by simp [shellMetacharacters], hcont⟩
    · exact ⟨['\x60'], by simp [shellMetacharacters], hcont⟩

/-- `needsShell` agrees with the spec's characterisation. -/
theorem needsShell_iff (t : String) : needsShell t = true ↔ specShellRequired t := by
  unfold needsShell specShellRequired
  rw [Bool.or_eq_true]
  constructor
  · rintro (h | h)
    · exact Or.inl ((metachars_iff t).mp h)
    · exact Or.inr ((envAssignLead_iff t.toList).mp h)
  · rintro (h | h)
    · exact Or.inl ((metachars_iff t).mpr h)
    · exact Or.inr ((envAssignLead_iff t.toList).mpr h)

/-- C9: a custom agent built from a template routes execution through
`sh -c` if and only if the template contains a shell metacharacter (pipe,
`&&`, `||`, command separator, redirect, command or backtick substitution)
or begins — at its first whitespace-separated word — with a valid
environment variable name followed by `'='`; every other template is
executed directly, without a shell. -/
theorem custom_agent_shell_routing (t : String) (c : CustomAgent)
    (h : NewCustomAgent t = some c) :
    (c.BuildCommandRoute = .shell ↔ specShellRequired t) ∧
    (c.BuildCommandRoute = .direct ↔ ¬ specShellRequired t) := by
  have hcu : c.useShell = needsShell t := by
    unfold NewCustomAgent at h
    by_cases hc : containsStr t promptPlaceholder = true
    · rw [if_pos hc] at h
      cases h
      rfl
    · rw [if_neg hc] at h
      cases h
  unfold CustomAgent.BuildCommandRoute
  rw [hcu]
  cases hns : needsShell t with
  | true =>
      have hspec := (needsShell_iff t).mp hns
      constructor
      · simp [hspec]
      · simp [hspec]
  | false =>
      have hspec : ¬ specShellRequired t := fun hs => by
        have := (needsShell_iff t).mpr hs
        rw [hns] at this
        cases this
      constructor
      · constructor
        · intro hr; cases hr
        · intro hs; exact absurd hs hspec
      · simp [hspec]

/-- Witness for C9: a template with a pipe routes through the shell, and a
plain template routes directly. -/
theorem custom_agent_shell_routing_witness :
    CustomAgent.BuildCommandRoute
        ⟨"custom", "cat \x7b\x7bPROMPT\x7d\x7d | tee out.log",
         needsShell "cat \x7b\x7bPROMPT\x7d\x7d | tee out.log"⟩ = CommandRoute.shell ∧
    CustomAgent.BuildCommandRoute
        ⟨"custom", "mytool --prompt \x7b\x7bPROMPT\x7d\x7d",
         needsShell "mytool --prompt \x7b\x7bPROMPT\x7d\x7d"⟩ = CommandRoute.direct := by
  constructor
  · exact (custom_agent_shell_routing "cat \x7b\x7bPROMPT\x7d\x7d | tee out.log" _
      (by decide)).1.mpr (Or.inl ⟨"|", by decide, by decide⟩)
  · refine (custom_agent_shell_routing "mytool --prompt \x7b\x7bPROMPT\x7d\x7d" _
      (by decide)).2.mpr ?_
    intro hs
    have := (needsShell_iff "mytool --prompt \x7b\x7bPROMPT\x7d\x7d").mpr hs
    exact absurd this (by decide)

end Autospec
